import Mathlib

/-!
Verification of the qobuz-cli concurrent acquisition core against its
natural-language specification.  The Python sources are shallowly embedded
as pure Lean functions; asynchronous effects (ledger reads/writes, network
transfers) are made explicit as values threaded through the embedding.

Components modelled:
* `TrackArchive` (src/qobuz_cli/storage/archive.py) — the idempotency ledger.
* `CircuitBreaker` (src/qobuz_cli/utils/circuit_breaker.py).
* `CacheManager` (src/qobuz_cli/storage/cache.py).
* `DownloadManager._process_album` / `_get_and_process_track`
  (src/qobuz_cli/core/download_manager.py) and
  `TrackProcessor.process_track` (src/qobuz_cli/core/track_processor.py).
-/

namespace QobuzCli

/-! ### Python dictionaries over string keys

`_check_batch_sync` builds its result with `dict.fromkeys` and
`dict.update`; we model a `dict[str, bool]` extensionally as a function
`String → Option Bool`. -/

/-- A Python `dict[str, bool]`, extensionally. -/
def PyDict : Type := String → Option Bool

/-- The empty dict `{}`. -/
def PyDict.empty : PyDict := fun _ => none

/-- Python `dict.fromkeys(ks, v)`: every key of `ks` maps to `v`. -/
def PyDict.fromKeys (ks : List String) (v : Bool) : PyDict :=
  fun k => if k ∈ ks then some v else none

/-- Python `d1.update(d2)`: entries of `d2` override those of `d1`. -/
def PyDict.update (d1 d2 : PyDict) : PyDict :=
  fun k => match d2 k with
    | some v => some v
    | none => d1 k

/-! ### TrackArchive._check_batch_sync (archive.py, lines 109–139)

The SQLite backend is abstracted as a `query` function taking the chunk of
ids interpolated into the `SELECT ... WHERE track_id IN (...)` statement and
returning either the matching rows or a `sqlite3.Error`.  The chunking loop
`for i in range(0, len(track_ids), BATCH_SIZE)` is the recursion on
`take`/`drop`; a raised `sqlite3.Error` aborts the loop and the `except`
branch returns `dict.fromkeys(track_ids, False)`. -/

/-- The `BATCH_SIZE` used by `_check_batch_sync`. -/
def CHECK_BATCH_SIZE : Nat := 999

/-- A `sqlite3.Error` from the backing store. -/
inductive SqliteError : Type
  | err : SqliteError

/-- The chunk loop body of `_check_batch_sync`: for each chunk, run the
`SELECT`, build `chunk_results = dict.fromkeys(chunk, False)` updated with
`dict.fromkeys(existing_ids, True)`, and fold it into `results`. -/
def checkBatchLoop (query : List String → Except SqliteError (List String)) :
    List String → PyDict → Except SqliteError PyDict
  | [], results => .ok results
  | r :: rest, results =>
    let chunk := (r :: rest).take CHECK_BATCH_SIZE
    match query chunk with
    | .error e => .error e
    | .ok existingIds =>
      let chunkResults :=
        PyDict.update (PyDict.fromKeys chunk false) (PyDict.fromKeys existingIds true)
      checkBatchLoop query ((r :: rest).drop CHECK_BATCH_SIZE) (results.update chunkResults)
  termination_by remaining _ => remaining.length
  decreasing_by
    simp only [List.length_drop, List.length_cons, CHECK_BATCH_SIZE]
    omega

/-- Model of `TrackArchive._check_batch_sync`: early-returns `{}` on an empty input;
otherwise runs the chunk loop, and on a `sqlite3.Error` returns
`dict.fromkeys(track_ids, False)`. -/
def checkBatchSync (query : List String → Except SqliteError (List String))
    (trackIds : List String) : PyDict :=
  if trackIds = [] then PyDict.empty
  else
    match checkBatchLoop query trackIds PyDict.empty with
    | .ok results => results
    | .error _ => PyDict.fromKeys trackIds false

/-- The `SELECT track_id FROM downloaded_tracks WHERE track_id IN (chunk)`
query over a healthy store holding the rows `store`. -/
def sqliteQuery (store : List String) : List String → Except SqliteError (List String) :=
  fun chunk => .ok (store.filter (fun r => r ∈ chunk))

/-- Model of `TrackArchive.check_if_tracks_exist` against a healthy store. -/
def check_if_tracks_exist (store : List String) (trackIds : List String) : PyDict :=
  checkBatchSync (sqliteQuery store) trackIds

/-- Characterization of the chunk loop of `_check_batch_sync` over a healthy
store: the loop succeeds and the resulting dict maps every id seen in the
remaining input to its store membership, leaving other keys to the
accumulator. -/
theorem checkBatchLoop_sqlite (store : List String) :
    ∀ (n : Nat) (remaining : List String), remaining.length ≤ n → ∀ (results : PyDict),
    ∃ m, checkBatchLoop (sqliteQuery store) remaining results = Except.ok m ∧
      ∀ k, m k = if k ∈ remaining then some (decide (k ∈ store)) else results k := by
  intro n
  induction n with
  | zero =>
    intro remaining hlen results
    have : remaining = [] := List.eq_nil_of_length_eq_zero (Nat.le_zero.mp hlen)
    subst this
    exact ⟨results, by rw [checkBatchLoop], fun k => by simp⟩
  | succ n ih =>
    intro remaining hlen results
    match remaining with
    | [] => exact ⟨results, by rw [checkBatchLoop], fun k => by simp⟩
    | r :: rest =>
      have hdroplen : ((r :: rest).drop CHECK_BATCH_SIZE).length ≤ n := by
        simp only [List.length_drop, List.length_cons, CHECK_BATCH_SIZE]
        simp only [List.length_cons] at hlen
        omega
      obtain ⟨m, hm, hmk⟩ := ih ((r :: rest).drop CHECK_BATCH_SIZE) hdroplen
        (results.update (PyDict.update
          (PyDict.fromKeys ((r :: rest).take CHECK_BATCH_SIZE) false)
          (PyDict.fromKeys (store.filter (fun x => x ∈ (r :: rest).take CHECK_BATCH_SIZE)) true)))
      refine ⟨m, ?_, ?_⟩
      · rw [checkBatchLoop]
        simp only [sqliteQuery]
        exact hm
      · intro k
        have hsplit : (r :: rest).take CHECK_BATCH_SIZE ++ (r :: rest).drop CHECK_BATCH_SIZE = r :: rest :=
          List.take_append_drop _ _
        rw [hmk k]
        by_cases hdrop : k ∈ (r :: rest).drop CHECK_BATCH_SIZE
        · have : k ∈ r :: rest := by
            rw [← hsplit]; exact List.mem_append_right _ hdrop
          simp [hdrop, this]
        · by_cases hchunk : k ∈ (r :: rest).take CHECK_BATCH_SIZE
          · have hmem : k ∈ r :: rest := by
              rw [← hsplit]; exact List.mem_append_left _ hchunk
            simp only [if_neg hdrop]
            simp only [PyDict.update, PyDict.fromKeys, List.mem_filter]
            simp [hchunk, hmem]
            by_cases hs : k ∈ store <;> simp [hs]
          · have hmem : k ∉ r :: rest := by
              rw [← hsplit]
              intro hc
              rcases List.mem_append.mp hc with h | h
              · exact hchunk h
              · exact hdrop h
            simp [hdrop, hmem, PyDict.update, PyDict.fromKeys, hchunk, List.mem_filter]

/-- C4: for every input list of track ids (of arbitrary length, possibly
containing duplicates), `check_if_tracks_exist` returns a single map with an
entry for every unique input id, whose value is true iff a record with that
id exists in the backing store; the internal chunking (999 ids per query)
does not affect the unified result. -/
theorem check_if_tracks_exist_correct (store trackIds : List String) (k : String) :
    check_if_tracks_exist store trackIds k =
      if k ∈ trackIds then some (decide (k ∈ store)) else none := by
  unfold check_if_tracks_exist checkBatchSync
  by_cases hnil : trackIds = []
  · subst hnil; simp [PyDict.empty]
  · simp only [if_neg hnil]
    obtain ⟨m, hm, hmk⟩ :=
      checkBatchLoop_sqlite store trackIds.length trackIds le_rfl PyDict.empty
    rw [hm]
    simp only []
    rw [hmk k]
    simp [PyDict.empty]

/-- C10: if the backing SQLite store raises an error during the batch
existence check, `check_if_tracks_exist` does not propagate it: every input
id is mapped to `False` (treated as not yet downloaded). -/
theorem checkBatchSync_store_error
    (query : List String → Except SqliteError (List String))
    (hq : ∀ c, query c = Except.error SqliteError.err)
    (trackIds : List String) (k : String) :
    checkBatchSync query trackIds k = if k ∈ trackIds then some false else none := by
  unfold checkBatchSync
  match trackIds with
  | [] => simp [PyDict.empty]
  | r :: rest =>
    simp only [if_neg (List.cons_ne_nil r rest)]
    rw [checkBatchLoop, hq]
    rfl

/-- Witness for C10 at a concrete failing store and input. -/
theorem checkBatchSync_store_error_witness :
    checkBatchSync (fun _ => Except.error SqliteError.err) ["11", "22"] "22" = some false ∧
    checkBatchSync (fun _ => Except.error SqliteError.err) ["11", "22"] "33" = none := by
  constructor
  · have h := checkBatchSync_store_error (fun _ => Except.error SqliteError.err)
      (fun _ => rfl) ["11", "22"] "22"
    simpa using h
  · have h := checkBatchSync_store_error (fun _ => Except.error SqliteError.err)
      (fun _ => rfl) ["11", "22"] "33"
    simpa using h

end QobuzCli

namespace QobuzCli

/-- A row of the `downloaded_tracks` table. -/
structure LedgerRecord where
  track_id : String
  artist : Option String
  album : Option String
  title : Option String
  deriving DecidableEq, Repr

/-- The track metadata dict consumed by `_add_batch_sync` (the fields it
reads).  `id` is `None` when the key is missing; Python string truthiness
makes `""` falsy as well. -/
structure TrackMeta where
  id : Option String
  performerName : Option String
  albumTitle : Option String
  title : Option String
  deriving DecidableEq, Repr

/-- Python truthiness of `meta.get("id")` for an optional string. -/
def pyTruthy : Option String → Bool
  | none => false
  | some s => s ≠ ""

/-- The list comprehension of `_add_batch_sync` building `records` from
`track_metas`, keeping only metas with a truthy `id`. -/
def recordsOfMetas (metas : List TrackMeta) : List LedgerRecord :=
  (metas.filter (fun m => pyTruthy m.id)).map
    (fun m => ⟨m.id.getD "", m.performerName, m.albumTitle, m.title⟩)

/-- One `INSERT OR IGNORE` of a record into the table: a record whose
`track_id` (primary key) is already present is ignored, never overwritten. -/
def insertOrIgnore (db : List LedgerRecord) (r : LedgerRecord) : List LedgerRecord :=
  if db.any (fun s => s.track_id == r.track_id) then db else db ++ [r]

/-- The `BATCH_SIZE` used by `_add_batch_sync`. -/
def ADD_BATCH_SIZE : Nat := 500

/-- The chunk loop of `_add_batch_sync`: `executemany` runs the insert for
each row of the chunk in order. -/
def addBatchLoop : List LedgerRecord → List LedgerRecord → List LedgerRecord
  | [], db => db
  | r :: rest, db =>
    addBatchLoop ((r :: rest).drop ADD_BATCH_SIZE)
      (((r :: rest).take ADD_BATCH_SIZE).foldl insertOrIgnore db)
  termination_by remaining _ => remaining.length
  decreasing_by
    simp only [List.length_drop, List.length_cons, ADD_BATCH_SIZE]
    omega

/-- Model of `TrackArchive._add_batch_sync` / `add_tracks` on a healthy store:
builds `records`, returns the store unchanged when there are none, else
inserts them chunk by chunk. -/
def add_tracks (db : List LedgerRecord) (metas : List TrackMeta) : List LedgerRecord :=
  let records := recordsOfMetas metas
  if records = [] then db else addBatchLoop records db

/-- The chunked insert loop is the plain left fold of `INSERT OR IGNORE`
over all records. -/
theorem addBatchLoop_eq_foldl :
    ∀ (n : Nat) (records : List LedgerRecord), records.length ≤ n → ∀ db,
    addBatchLoop records db = records.foldl insertOrIgnore db := by
  intro n
  induction n with
  | zero =>
    intro records hlen db
    have : records = [] := List.eq_nil_of_length_eq_zero (Nat.le_zero.mp hlen)
    subst this
    rw [addBatchLoop]
    rfl
  | succ n ih =>
    intro records hlen db
    match records with
    | [] => rw [addBatchLoop]; rfl
    | r :: rest =>
      have hdroplen : ((r :: rest).drop ADD_BATCH_SIZE).length ≤ n := by
        simp only [List.length_drop, List.length_cons, ADD_BATCH_SIZE]
        simp only [List.length_cons] at hlen
        omega
      rw [addBatchLoop, ih _ hdroplen, ← List.foldl_append,
        List.take_append_drop]

theorem add_tracks_eq_foldl (db : List LedgerRecord) (metas : List TrackMeta) :
    add_tracks db metas = (recordsOfMetas metas).foldl insertOrIgnore db := by
  unfold add_tracks
  by_cases h : recordsOfMetas metas = []
  · simp [h]
  · simp only [if_neg h]
    exact addBatchLoop_eq_foldl (recordsOfMetas metas).length _ le_rfl db

end QobuzCli

namespace QobuzCli

theorem insertOrIgnore_pos {db : List LedgerRecord} {r : LedgerRecord}
    (h : db.any (fun s => s.track_id == r.track_id)) : insertOrIgnore db r = db :=
  if_pos h

theorem insertOrIgnore_neg {db : List LedgerRecord} {r : LedgerRecord}
    (h : ¬ db.any (fun s => s.track_id == r.track_id)) : insertOrIgnore db r = db ++ [r] :=
  if_neg h

theorem mem_foldl_insertOrIgnore (rs : List LedgerRecord) :
    ∀ (db : List LedgerRecord) (s : LedgerRecord), s ∈ db → s ∈ rs.foldl insertOrIgnore db := by
  induction rs with
  | nil => intro db s hs; exact hs
  | cons r rest ih =>
    intro db s hs
    rw [List.foldl_cons]
    refine ih _ s ?_
    by_cases h : db.any (fun x => x.track_id == r.track_id)
    · rw [insertOrIgnore_pos h]; exact hs
    · rw [insertOrIgnore_neg h]; exact List.mem_append_left _ hs

theorem exists_id_foldl_insertOrIgnore (rs : List LedgerRecord) :
    ∀ (db : List LedgerRecord) (r : LedgerRecord), r ∈ rs →
      ∃ s ∈ rs.foldl insertOrIgnore db, s.track_id = r.track_id := by
  induction rs with
  | nil => intro db r hr; cases hr
  | cons a rest ih =>
    intro db r hr
    rcases List.mem_cons.mp hr with h | h
    · subst h
      rw [List.foldl_cons]
      by_cases hin : db.any (fun x => x.track_id == r.track_id)
      · obtain ⟨s, hs, hst⟩ := List.any_eq_true.mp hin
        refine ⟨s, mem_foldl_insertOrIgnore rest (insertOrIgnore db r) s ?_, by simpa using hst⟩
        rw [insertOrIgnore_pos hin]; exact hs
      · refine ⟨r, mem_foldl_insertOrIgnore rest (insertOrIgnore db r) r ?_, rfl⟩
        rw [insertOrIgnore_neg hin]
        exact List.mem_append_right _ (List.mem_singleton.mpr rfl)
    · exact ih _ r h

theorem filter_foldl_insertOrIgnore (rs : List LedgerRecord) :
    ∀ (db : List LedgerRecord) (t : String), (∃ s ∈ db, s.track_id = t) →
      (rs.foldl insertOrIgnore db).filter (fun s => s.track_id == t) =
        db.filter (fun s => s.track_id == t) := by
  induction rs with
  | nil => intro db t _; rfl
  | cons r rest ih =>
    intro db t hex
    rw [List.foldl_cons]
    by_cases hin : db.any (fun x => x.track_id == r.track_id)
    · rw [insertOrIgnore_pos hin]
      exact ih db t hex
    · have hne : r.track_id ≠ t := by
        intro heq
        obtain ⟨s, hs, hst⟩ := hex
        exact hin (List.any_eq_true.mpr ⟨s, hs, by simp [hst, heq]⟩)
      rw [insertOrIgnore_neg hin]
      rw [ih (db ++ [r]) t
        ⟨hex.choose, List.mem_append_left _ hex.choose_spec.1, hex.choose_spec.2⟩]
      rw [List.filter_append]
      simp [hne]

theorem nodup_ids_foldl_insertOrIgnore (rs : List LedgerRecord) :
    ∀ (db : List LedgerRecord), (db.map (fun s => s.track_id)).Nodup →
      ((rs.foldl insertOrIgnore db).map (fun s => s.track_id)).Nodup := by
  induction rs with
  | nil => intro db h; exact h
  | cons r rest ih =>
    intro db h
    rw [List.foldl_cons]
    refine ih _ ?_
    by_cases hin : db.any (fun x => x.track_id == r.track_id)
    · rw [insertOrIgnore_pos hin]; exact h
    · rw [insertOrIgnore_neg hin]
      rw [List.map_append]
      simp only [List.map_cons, List.map_nil]
      rw [List.nodup_append]
      refine ⟨h, List.nodup_singleton _, ?_⟩
      intro a ha hb
      simp only [List.mem_singleton] at hb
      subst hb
      obtain ⟨s, hs, hst⟩ := List.mem_map.mp ha
      exact hin (List.any_eq_true.mpr ⟨s, hs, by simp [hst]⟩)

theorem countId_le_one_of_nodup (db : List LedgerRecord) (t : String)
    (h : (db.map (fun s => s.track_id)).Nodup) :
    (db.filter (fun s => s.track_id == t)).length ≤ 1 := by
  induction db with
  | nil => simp
  | cons s rest ih =>
    simp only [List.map_cons, List.nodup_cons] at h
    by_cases hst : s.track_id == t
    · have ht : t ∉ rest.map (fun x => x.track_id) := by
        have he : s.track_id = t := by simpa using hst
        rw [← he]; exact h.1
      have hrest : rest.filter (fun x => x.track_id == t) = [] := by
        rw [List.filter_eq_nil_iff]
        intro a ha hfa
        exact ht (List.mem_map.mpr ⟨a, ha, by simpa using hfa⟩)
      simp [List.filter_cons, hst, hrest]
    · simp only [List.filter_cons, hst]
      simp only [Bool.false_eq_true, if_false]
      exact ih h.2

theorem one_le_countId_of_mem (db : List LedgerRecord) (t : String)
    (h : ∃ s ∈ db, s.track_id = t) :
    1 ≤ (db.filter (fun s => s.track_id == t)).length := by
  obtain ⟨s, hs, hst⟩ := h
  have : s ∈ db.filter (fun x => x.track_id == t) :=
    List.mem_filter.mpr ⟨hs, by simp [hst]⟩
  exact List.length_pos.mpr (List.ne_nil_of_mem this)

end QobuzCli

namespace QobuzCli

/-- C5: ledger insert idempotence.  Inserting the same track id twice via
`add_tracks` — within one batch or across batches — leaves exactly one
record for that id, and a later insert of an already-present id never
overwrites the existing record's fields. -/
theorem add_tracks_idempotent (db : List LedgerRecord) (b1 b2 : List TrackMeta) (t : String)
    (hnodup : (db.map (fun r => r.track_id)).Nodup)
    (ht : ∃ r ∈ recordsOfMetas b1, r.track_id = t) :
    ((add_tracks db b1).filter (fun s => s.track_id == t)).length = 1 ∧
    ((add_tracks (add_tracks db b1) b2).filter (fun s => s.track_id == t)).length = 1 ∧
    (add_tracks (add_tracks db b1) b2).filter (fun s => s.track_id == t) =
      (add_tracks db b1).filter (fun s => s.track_id == t) := by
  rw [add_tracks_eq_foldl, add_tracks_eq_foldl]
  obtain ⟨r, hr, hrt⟩ := ht
  have hmem1 : ∃ s ∈ (recordsOfMetas b1).foldl insertOrIgnore db, s.track_id = t := by
    obtain ⟨s, hs, hst⟩ := exists_id_foldl_insertOrIgnore (recordsOfMetas b1) db r hr
    exact ⟨s, hs, hst.trans hrt⟩
  have hnodup1 : (((recordsOfMetas b1).foldl insertOrIgnore db).map (fun s => s.track_id)).Nodup :=
    nodup_ids_foldl_insertOrIgnore _ db hnodup
  have hcount1 :
      (((recordsOfMetas b1).foldl insertOrIgnore db).filter (fun s => s.track_id == t)).length = 1 :=
    Nat.le_antisymm (countId_le_one_of_nodup _ t hnodup1) (one_le_countId_of_mem _ t hmem1)
  have hfix := filter_foldl_insertOrIgnore (recordsOfMetas b2) _ t hmem1
  exact ⟨hcount1, by rw [hfix]; exact hcount1, hfix⟩

/-- Witness for C5: inserting id "7" twice within one batch and again in a
second batch leaves exactly one unmodified record. -/
theorem add_tracks_idempotent_witness :
    (((add_tracks [] [⟨some "7", some "A", none, some "S"⟩, ⟨some "7", some "B", none, none⟩])).filter
        (fun s => s.track_id == "7")).length = 1 ∧
    ((add_tracks (add_tracks [] [⟨some "7", some "A", none, some "S"⟩, ⟨some "7", some "B", none, none⟩])
        [⟨some "7", some "C", some "X", none⟩]).filter (fun s => s.track_id == "7")).length = 1 ∧
    (add_tracks (add_tracks [] [⟨some "7", some "A", none, some "S"⟩, ⟨some "7", some "B", none, none⟩])
        [⟨some "7", some "C", some "X", none⟩]).filter (fun s => s.track_id == "7") =
      (add_tracks [] [⟨some "7", some "A", none, some "S"⟩, ⟨some "7", some "B", none, none⟩]).filter
        (fun s => s.track_id == "7") := by
  exact add_tracks_idempotent [] [⟨some "7", some "A", none, some "S"⟩, ⟨some "7", some "B", none, none⟩]
    [⟨some "7", some "C", some "X", none⟩] "7" (by simp)
    ⟨⟨"7", some "A", none, some "S"⟩, by simp [recordsOfMetas, pyTruthy], rfl⟩

end QobuzCli

namespace QobuzCli

/-! ### CircuitBreaker (circuit_breaker.py)

Monotonic time is modelled as a `Nat`; `time.monotonic()` readings are
passed explicitly to the operations that consult the clock.  `__aenter__`
raising `CircuitBreakerError` is an `Except.error`; an `Except.ok` means the
wrapped upstream call is allowed to proceed. -/

/-- The `CircuitState` enum. -/
inductive CircuitState : Type
  | closed
  | opened
  | halfOpen
  deriving DecidableEq, Repr

/-- The `CircuitBreaker` configuration and mutable fields. -/
structure CircuitBreaker where
  failure_threshold : Nat
  recovery_timeout : Nat
  success_threshold : Nat
  state : CircuitState
  failure_count : Nat
  success_count : Nat
  last_failure_time : Option Nat
  deriving DecidableEq, Repr

/-- Model of `CircuitBreaker.__init__`. -/
def CircuitBreaker.init (failureThreshold recoveryTimeout successThreshold : Nat) :
    CircuitBreaker :=
  { failure_threshold := failureThreshold
    recovery_timeout := recoveryTimeout
    success_threshold := successThreshold
    state := .closed
    failure_count := 0
    success_count := 0
    last_failure_time := none }

/-- Model of `CircuitBreaker._check_state`: transition `OPEN → HALF_OPEN` once
`recovery_timeout` has elapsed since the last failure. -/
def CircuitBreaker.checkState (cb : CircuitBreaker) (now : Nat) : CircuitBreaker :=
  if cb.state = .opened then
    match cb.last_failure_time with
    | none => cb
    | some t =>
      if cb.recovery_timeout ≤ now - t then
        { cb with state := .halfOpen, success_count := 0 }
      else cb
  else cb

/-- Model of `CircuitBreaker.__aenter__`: check the state; if still `OPEN`, raise
`CircuitBreakerError`, meaning the upstream call is never made. -/
def CircuitBreaker.aenter (cb : CircuitBreaker) (now : Nat) : Except Unit CircuitBreaker :=
  let cb2 := cb.checkState now
  if cb2.state = .opened then .error () else .ok cb2

/-- Model of `CircuitBreaker._on_success`. -/
def CircuitBreaker.onSuccess (cb : CircuitBreaker) : CircuitBreaker :=
  let cb2 := { cb with failure_count := 0 }
  if cb2.state = .halfOpen then
    let cb3 := { cb2 with success_count := cb2.success_count + 1 }
    if cb3.success_threshold ≤ cb3.success_count then
      { cb3 with state := .closed, success_count := 0 }
    else cb3
  else cb2

/-- Model of `CircuitBreaker._on_failure`. -/
def CircuitBreaker.onFailure (cb : CircuitBreaker) (now : Nat) : CircuitBreaker :=
  let cb2 := { cb with failure_count := cb.failure_count + 1, last_failure_time := some now }
  if cb2.state = .halfOpen then
    { cb2 with state := .opened, failure_count := 0, success_count := 0 }
  else if cb2.state = .closed then
    if cb2.failure_threshold ≤ cb2.failure_count then { cb2 with state := .opened } else cb2
  else cb2

/-- A run of consecutive recorded failures at the given times. -/
def CircuitBreaker.applyFailures (cb : CircuitBreaker) (times : List Nat) : CircuitBreaker :=
  times.foldl CircuitBreaker.onFailure cb

/-- A run of `n` consecutive recorded successes. -/
def CircuitBreaker.applySuccesses (cb : CircuitBreaker) : Nat → CircuitBreaker
  | 0 => cb
  | n + 1 => cb.onSuccess.applySuccesses n

theorem applyFailures_below_threshold :
    ∀ (times : List Nat) (cb : CircuitBreaker), cb.state = .closed →
      cb.failure_count + times.length < cb.failure_threshold →
      ∃ lf, cb.applyFailures times =
        { cb with failure_count := cb.failure_count + times.length,
                  last_failure_time := lf } := by
  intro times
  induction times with
  | nil =>
    intro cb hclosed _
    exact ⟨cb.last_failure_time, by simp [CircuitBreaker.applyFailures]⟩
  | cons t rest ih =>
    intro cb hclosed hlt
    have hstep : cb.onFailure t =
        { cb with failure_count := cb.failure_count + 1, last_failure_time := some t } := by
      unfold CircuitBreaker.onFailure
      simp [hclosed]
      simp only [List.length_cons] at hlt
      omega
    have hrec := ih { cb with failure_count := cb.failure_count + 1,
                              last_failure_time := some t }
      (by simp [hclosed]) (by simp; simp only [List.length_cons] at hlt; omega)
    obtain ⟨lf, hlf⟩ := hrec
    refine ⟨lf, ?_⟩
    calc cb.applyFailures (t :: rest)
        = (cb.onFailure t).applyFailures rest := rfl
      _ = _ := by rw [hstep, hlf]; simp; omega

theorem applyFailures_opens_at_threshold (ts : List Nat) (t0 : Nat) (cb : CircuitBreaker)
    (hclosed : cb.state = .closed)
    (hlen : cb.failure_count + ts.length + 1 = cb.failure_threshold) :
    cb.applyFailures (ts ++ [t0]) =
      { cb with state := .opened, failure_count := cb.failure_threshold,
                last_failure_time := some t0 } := by
  have hmid := applyFailures_below_threshold ts cb hclosed (by omega)
  obtain ⟨lf, hlf⟩ := hmid
  have : cb.applyFailures (ts ++ [t0]) = (cb.applyFailures ts).onFailure t0 := by
    unfold CircuitBreaker.applyFailures
    rw [List.foldl_append]
    rfl
  rw [this, hlf]
  unfold CircuitBreaker.onFailure
  simp [hclosed]
  rw [if_pos (show cb.failure_threshold ≤ cb.failure_count + ts.length + 1 by omega)]
  rw [hlen]

theorem applySuccesses_halfOpen_closes :
    ∀ (n : Nat) (cb : CircuitBreaker), cb.state = .halfOpen →
      cb.success_count + n = cb.success_threshold → 1 ≤ n →
      (cb.applySuccesses n).state = .closed := by
  intro n
  induction n with
  | zero => intro cb _ _ h; cases h
  | succ n ih =>
    intro cb hhalf hsum _
    by_cases hclose : cb.success_threshold ≤ cb.success_count + 1
    · have hn : n = 0 := by omega
      subst hn
      have : cb.onSuccess = { cb with state := .closed, failure_count := 0,
                                      success_count := 0 } := by
        unfold CircuitBreaker.onSuccess
        simp [hhalf, hclose]
      simp [CircuitBreaker.applySuccesses, this]
    · have hstep : cb.onSuccess = { cb with failure_count := 0,
                                            success_count := cb.success_count + 1 } := by
        unfold CircuitBreaker.onSuccess
        simp [hhalf, hclose]
      have : cb.applySuccesses (n + 1) = cb.onSuccess.applySuccesses n := rfl
      rw [this, hstep]
      exact ih _ (by simp [hhalf]) (by simp; omega) (by omega)

theorem onFailure_halfOpen_opens (cb : CircuitBreaker) (t : Nat)
    (hhalf : cb.state = .halfOpen) :
    cb.onFailure t = { cb with state := .opened, failure_count := 0, success_count := 0,
                               last_failure_time := some t } := by
  unfold CircuitBreaker.onFailure
  simp [hhalf]

/-- C2: the CircuitBreaker state machine.  Starting `Closed`, after exactly
`failure_threshold` consecutive recorded failures the state is `Open` and a
scoped acquisition before `recovery_timeout` has elapsed since the last
failure raises `CircuitBreakerError` (the upstream is never invoked); an
acquisition at least `recovery_timeout` after the last failure proceeds in
state `HalfOpen`; `success_threshold` consecutive successes in `HalfOpen`
return the state to `Closed`; any single failure in `HalfOpen` returns the
state to `Open`. -/
theorem circuit_breaker_state_machine (ft rt st : Nat) (_hft : 1 ≤ ft) (hst : 1 ≤ st)
    (ts : List Nat) (hts : ts.length + 1 = ft) (t0 now1 now2 : Nat)
    (h1 : now1 - t0 < rt) (h2 : rt ≤ now2 - t0) :
    (((CircuitBreaker.init ft rt st).applyFailures (ts ++ [t0])).state = .opened) ∧
    (∀ k, k < ft → (((CircuitBreaker.init ft rt st).applyFailures (ts.take k)).state = .closed)) ∧
    (((CircuitBreaker.init ft rt st).applyFailures (ts ++ [t0])).aenter now1 = .error ()) ∧
    (∃ cb2, ((CircuitBreaker.init ft rt st).applyFailures (ts ++ [t0])).aenter now2 = .ok cb2 ∧
      cb2.state = .halfOpen ∧ cb2.success_count = 0 ∧
      (cb2.applySuccesses st).state = .closed ∧
      (∀ t, (cb2.onFailure t).state = .opened)) := by
  have hopen := applyFailures_opens_at_threshold ts t0 (CircuitBreaker.init ft rt st)
    rfl (by simpa [CircuitBreaker.init] using hts)
  refine ⟨by rw [hopen], ?_, ?_, ?_⟩
  · intro k hk
    have hklen : k ≤ ts.length := by omega
    have := applyFailures_below_threshold (ts.take k) (CircuitBreaker.init ft rt st)
      rfl (by simp [CircuitBreaker.init]; omega)
    obtain ⟨lf, hlf⟩ := this
    rw [hlf]
    rfl
  · rw [hopen]
    have hcond : ¬ rt ≤ now1 - t0 := by omega
    simp [CircuitBreaker.aenter, CircuitBreaker.checkState, CircuitBreaker.init, hcond]
  · rw [hopen]
    simp only [CircuitBreaker.aenter, CircuitBreaker.checkState, CircuitBreaker.init]
    simp [h2]
    refine ⟨?_, ?_⟩
    · exact applySuccesses_halfOpen_closes st _ rfl (by simp) hst
    · intro t
      rw [onFailure_halfOpen_opens _ t rfl]

end QobuzCli

namespace QobuzCli

/-- Witness for C2 at `failure_threshold=2, recovery_timeout=60,
success_threshold=2`, failures at times 5 and 10, an acquisition at 30
(blocked) and one at 100 (allowed through in HALF_OPEN). -/
theorem circuit_breaker_state_machine_witness :
    (((CircuitBreaker.init 2 60 2).applyFailures ([5] ++ [10])).state = .opened) ∧
    (∀ k, k < 2 → (((CircuitBreaker.init 2 60 2).applyFailures ([5].take k)).state = .closed)) ∧
    (((CircuitBreaker.init 2 60 2).applyFailures ([5] ++ [10])).aenter 30 = .error ()) ∧
    (∃ cb2, ((CircuitBreaker.init 2 60 2).applyFailures ([5] ++ [10])).aenter 100 = .ok cb2 ∧
      cb2.state = .halfOpen ∧ cb2.success_count = 0 ∧
      (cb2.applySuccesses 2).state = .closed ∧
      (∀ t, (cb2.onFailure t).state = .opened)) :=
  circuit_breaker_state_machine 2 60 2 (by decide) (by decide) [5] (by decide) 10 30 100
    (by decide) (by decide)

/-- C3 counterexample: on the Closed→Open transition (threshold 1, a single
failure at time 5) the rolling failure counter is not reset — it holds 1 —
and after the subsequent Open→HalfOpen transition it still holds 1. -/
theorem circuit_counters_not_reset_counterexample :
    ((CircuitBreaker.init 1 60 2).onFailure 5).state = .opened ∧
    ((CircuitBreaker.init 1 60 2).onFailure 5).failure_count = 1 ∧
    (((CircuitBreaker.init 1 60 2).onFailure 5).checkState 100).state = .halfOpen ∧
    (((CircuitBreaker.init 1 60 2).onFailure 5).checkState 100).failure_count = 1 := by
  refine ⟨rfl, rfl, ?_, ?_⟩ <;> decide

/-- C3 amended: counters are both reset on HalfOpen→Open and
HalfOpen→Closed; Open→HalfOpen resets only the success counter and leaves
the failure counter unchanged; Closed→Open resets neither counter (the
failure counter retains its just-incremented value). -/
theorem circuit_counter_reset_on_transitions (ft rt st fc sc t tl now : Nat) (lt : Option Nat) :
    ((⟨ft, rt, st, .halfOpen, fc, sc, lt⟩ : CircuitBreaker).onFailure t =
      ⟨ft, rt, st, .opened, 0, 0, some t⟩) ∧
    ((⟨ft, rt, st, .halfOpen, fc, sc, lt⟩ : CircuitBreaker).onSuccess =
      if st ≤ sc + 1 then ⟨ft, rt, st, .closed, 0, 0, lt⟩
      else ⟨ft, rt, st, .halfOpen, 0, sc + 1, lt⟩) ∧
    ((⟨ft, rt, st, .opened, fc, sc, some tl⟩ : CircuitBreaker).checkState now =
      if rt ≤ now - tl then ⟨ft, rt, st, .halfOpen, fc, 0, some tl⟩
      else ⟨ft, rt, st, .opened, fc, sc, some tl⟩) ∧
    ((⟨ft, rt, st, .closed, fc, sc, lt⟩ : CircuitBreaker).onFailure t =
      if ft ≤ fc + 1 then ⟨ft, rt, st, .opened, fc + 1, sc, some t⟩
      else ⟨ft, rt, st, .closed, fc + 1, sc, some t⟩) := by
  refine ⟨?_, ?_, ?_, ?_⟩
  · unfold CircuitBreaker.onFailure
    simp
  · unfold CircuitBreaker.onSuccess
    split_ifs with h <;> simp_all
  · unfold CircuitBreaker.checkState
    split_ifs with h <;> simp_all
  · unfold CircuitBreaker.onFailure
    split_ifs with h <;> simp_all

end QobuzCli

namespace QobuzCli

/-! ### CacheManager (cache.py)

The cache directory is modelled as a map from the cache key to the file's
content and mtime (`set` writes the file, stamping the current time; `get`
compares `time.time() - st_mtime` against `max_age_seconds`).  `md5(key)`
only derives the file name and is collision-resistant, so files are keyed
by `key` itself.  Values are carried in their JSON-serialized form; the
size cap `MAX_CACHE_VALUE_KB = 500` applies to the serialized payload. -/

/-- The cache directory: key → (serialized value, file mtime). -/
def CacheFs : Type := String → Option (String × Nat)

/-- The cap `MAX_CACHE_VALUE_KB * 1024` as a byte budget. -/
def MAX_CACHE_VALUE_BYTES : Nat := 500 * 1024

/-- Size in bytes of the serialized `{"key": key, "timestamp": now,
"value": value}` payload (value already serialized). -/
def payloadSize (key value : String) : Nat := key.length + value.length

/-- Model of `CacheManager.get`: absent if no file; if the entry is older than
`max_age_seconds`, delete it and miss; otherwise return the stored value.
Returns the result together with the cache directory after the call. -/
def cacheGet (fs : CacheFs) (maxAge now : Nat) (key : String) :
    Option String × CacheFs :=
  match fs key with
  | none => (none, fs)
  | some (v, mtime) =>
    if maxAge < now - mtime then
      (none, fun x => if x = key then none else fs x)
    else (some v, fs)

/-- Model of `CacheManager.set`: reject oversized payloads (returns `false`, writes
nothing), else write the file with the current time as mtime. -/
def cacheSet (fs : CacheFs) (now : Nat) (key value : String) : Bool × CacheFs :=
  if MAX_CACHE_VALUE_BYTES < payloadSize key value then (false, fs)
  else (true, fun x => if x = key then some (value, now) else fs x)

/-- C9: after a successful `set(k, v)`, an immediate `get(k)` returns `v`
(cache untouched); a `get(k)` performed more than `max_age` after the entry
was recorded misses, and as a side effect the entry's file is deleted. -/
theorem cache_ttl (fs : CacheFs) (maxAge now : Nat) (key value : String)
    (hset : (cacheSet fs now key value).1 = true) :
    cacheGet (cacheSet fs now key value).2 maxAge now key =
      (some value, (cacheSet fs now key value).2) ∧
    (∀ later, maxAge < later - now →
      (cacheGet (cacheSet fs now key value).2 maxAge later key).1 = none ∧
      (cacheGet (cacheSet fs now key value).2 maxAge later key).2 key = none) := by
  have hsize : ¬ MAX_CACHE_VALUE_BYTES < payloadSize key value := by
    by_contra h
    rw [cacheSet, if_pos h] at hset
    exact Bool.false_ne_true hset
  have hfs : (cacheSet fs now key value).2 =
      fun x => if x = key then some (value, now) else fs x := by
    rw [cacheSet, if_neg hsize]
  constructor
  · rw [hfs]
    simp [cacheGet]
  · intro later hlate
    rw [hfs]
    simp [cacheGet, hlate]

/-- Witness for C9: set at time 0, hit at time 0, miss-and-delete at time
90000 with a one-day TTL. -/
theorem cache_ttl_witness :
    cacheGet (cacheSet (fun _ => none) 0 "k" "v").2 86400 0 "k" =
      (some "v", (cacheSet (fun _ => none) 0 "k" "v").2) ∧
    (cacheGet (cacheSet (fun _ => none) 0 "k" "v").2 86400 90000 "k").1 = none ∧
    (cacheGet (cacheSet (fun _ => none) 0 "k" "v").2 86400 90000 "k").2 "k" = none := by
  have h := cache_ttl (fun _ => none) 86400 0 "k" "v" (by decide)
  exact ⟨h.1, h.2 90000 (by decide)⟩

end QobuzCli

namespace QobuzCli

/-! ### DownloadManager._process_album / _process_track /
_get_and_process_track (download_manager.py) and
TrackProcessor.process_track (track_processor.py)

The external world seen by one track is a `TrackEnv`: how the archive,
URL resolution, the filesystem and the transfer would respond for it.
Per-run counters are the five terminal-classification fields of
`DownloadStats` (stats.py) plus `albums_skipped`; the side effects of
processing (metadata fetches, cache writes, ledger reads/writes, network
transfers) are collected in `Effects`. -/

/-- The terminal-classification counters of `DownloadStats`. -/
structure Stats where
  tracks_downloaded : Nat
  tracks_skipped_archive : Nat
  tracks_skipped_exists : Nat
  tracks_skipped_quality : Nat
  tracks_failed : Nat
  albums_skipped : Nat
  deriving DecidableEq, Repr

/-- All-zero counters at session start. -/
def Stats.zero : Stats := ⟨0, 0, 0, 0, 0, 0⟩

/-- Fieldwise sum of two counter sets. -/
def Stats.add (s1 s2 : Stats) : Stats :=
  ⟨s1.tracks_downloaded + s2.tracks_downloaded,
   s1.tracks_skipped_archive + s2.tracks_skipped_archive,
   s1.tracks_skipped_exists + s2.tracks_skipped_exists,
   s1.tracks_skipped_quality + s2.tracks_skipped_quality,
   s1.tracks_failed + s2.tracks_failed,
   s1.albums_skipped + s2.albums_skipped⟩

/-- The sum of the five per-track terminal classifications (the
conservation-law quantity; `albums_skipped` is not one of them). -/
def sumStats (s : Stats) : Nat :=
  s.tracks_downloaded + s.tracks_skipped_archive + s.tracks_skipped_exists +
    s.tracks_skipped_quality + s.tracks_failed

/-- One track's terminal classification. -/
inductive TrackClass : Type
  | downloaded
  | skippedArchive
  | skippedExists
  | skippedQuality
  | failed
  deriving DecidableEq, Repr

/-- Increment the counter named by the classification. -/
def Stats.bump (s : Stats) : TrackClass → Stats
  | .downloaded => { s with tracks_downloaded := s.tracks_downloaded + 1 }
  | .skippedArchive => { s with tracks_skipped_archive := s.tracks_skipped_archive + 1 }
  | .skippedExists => { s with tracks_skipped_exists := s.tracks_skipped_exists + 1 }
  | .skippedQuality => { s with tracks_skipped_quality := s.tracks_skipped_quality + 1 }
  | .failed => { s with tracks_failed := s.tracks_failed + 1 }

/-- The configuration flags consulted along these code paths. -/
structure DLConfig where
  dry_run : Bool
  download_archive : Bool
  no_fallback : Bool
  albums_only : Bool
  deriving DecidableEq, Repr

/-- How the world would respond for one track. -/
structure TrackEnv where
  id : String
  inArchive : Bool          -- would `check_if_tracks_exist` report it present
  urlFetchOk : Bool         -- does `fetch_track_url` succeed
  qualityRestricted : Bool  -- restrictions contain FormatRestrictedByFormatAvailability
  hasUrl : Bool             -- is `url_data.get("url")` non-null
  fileExists : Bool         -- `final_path.is_file()`
  transferOk : Bool         -- download, tagging and integrity check all succeed
  deriving DecidableEq, Repr

/-- One album as submitted to `_process_album`. -/
structure AlbumEnv where
  id : String
  streamable : Bool
  isAlbumRelease : Bool  -- release_type == "album" and artist != "Various Artists"
  tracks : List TrackEnv
  deriving DecidableEq, Repr

/-- The side effects of processing. -/
structure Effects where
  metadataFetches : List String
  cacheWrites : List String
  ledgerReads : List (List String)
  transfers : List String
  ledgerWrites : List (List String)
  deriving DecidableEq, Repr

/-- No effects. -/
def Effects.nil : Effects := ⟨[], [], [], [], []⟩

/-- Concatenate effect logs. -/
def Effects.app (e1 e2 : Effects) : Effects :=
  ⟨e1.metadataFetches ++ e2.metadataFetches,
   e1.cacheWrites ++ e2.cacheWrites,
   e1.ledgerReads ++ e2.ledgerReads,
   e1.transfers ++ e2.transfers,
   e1.ledgerWrites ++ e2.ledgerWrites⟩

/-- Model of `_get_and_process_track` + `process_track` for one track, returning the
classification, the transfers performed, and the `add_tracks` calls issued.
In dry-run mode `process_track` counts the track as downloaded and returns
before any transfer or write; otherwise the branches follow the source:
URL-resolution failure, quality policy skip, missing URL, already-on-disk
skip, then the transfer whose success leads to the per-item
`add_tracks([processed_meta])` call. -/
def getAndProcessTrack (cfg : DLConfig) (t : TrackEnv) :
    TrackClass × List String × List (List String) :=
  if cfg.dry_run then
    (.downloaded, [], [])
  else if !t.urlFetchOk then
    (.failed, [], [])
  else if t.qualityRestricted && cfg.no_fallback then
    (.skippedQuality, [], [])
  else if !t.hasUrl then
    (.failed, [], [])
  else if t.fileExists then
    (.skippedExists, [], [])
  else if t.transferOk then
    (.downloaded, [t.id], if cfg.download_archive then [[t.id]] else [])
  else
    (.failed, [t.id], [])

/-- The per-track accumulation inside `_process_album`: classify the track
and append its transfer and `add_tracks` effects. -/
def albumStep (cfg : DLConfig) (acc : Stats × Effects) (t : TrackEnv) : Stats × Effects :=
  let r := getAndProcessTrack cfg t
  (acc.1.bump r.1,
   { acc.2 with
     transfers := acc.2.transfers ++ r.2.1
     ledgerWrites := acc.2.ledgerWrites ++ r.2.2 })

/-- Model of `DownloadManager._process_album`: gates (streamable, albums-only), the
batch ledger read (only when `download_archive` and not `dry_run`), the
archive skip accounting, then per-track processing of the remainder. -/
def processAlbum (cfg : DLConfig) (a : AlbumEnv) (albumMetaCached : Bool) : Stats × Effects :=
  let metaE : Effects :=
    { Effects.nil with
      metadataFetches := if albumMetaCached then [] else [a.id]
      cacheWrites := if albumMetaCached then [] else [a.id] }
  if !a.streamable then
    ({ Stats.zero with albums_skipped := 1 }, metaE)
  else if cfg.albums_only && !a.isAlbumRelease then
    (Stats.zero, metaE)
  else
    let doCheck := cfg.download_archive && !cfg.dry_run
    let processable := a.tracks.filter (fun t => !(doCheck && t.inArchive))
    let skippedCount := a.tracks.length - processable.length
    let base : Stats := { Stats.zero with tracks_skipped_archive := skippedCount }
    let readsE : Effects :=
      { metaE with ledgerReads := if doCheck then [a.tracks.map (fun t => t.id)] else [] }
    processable.foldl (albumStep cfg) (base, readsE)

/-- Model of `DownloadManager._process_track` (the single-track flow): metadata
fetch/cache, the single-id ledger read (performed whenever
`download_archive` is on, dry-run or not), the archive skip, then
`_get_and_process_track`. -/
def processSingleTrack (cfg : DLConfig) (t : TrackEnv) (metaCached : Bool) : Stats × Effects :=
  let metaE : Effects :=
    { Effects.nil with
      metadataFetches := if metaCached then [] else [t.id]
      cacheWrites := if metaCached then [] else [t.id]
      ledgerReads := if cfg.download_archive then [[t.id]] else [] }
  if cfg.download_archive && t.inArchive then
    ({ Stats.zero with tracks_skipped_archive := 1 }, metaE)
  else
    let r := getAndProcessTrack cfg t
    (Stats.zero.bump r.1,
     { metaE with transfers := r.2.1, ledgerWrites := r.2.2 })

/-- A run over several albums: `_process_album` early-returns (classifying
nothing) for an album id already in `_processed_album_ids`. -/
def processRun (cfg : DLConfig) : List (AlbumEnv × Bool) → List String → Stats × Effects
  | [], _ => (Stats.zero, Effects.nil)
  | (a, cached) :: rest, seen =>
    if a.id ∈ seen then processRun cfg rest seen
    else
      let r := processAlbum cfg a cached
      let rr := processRun cfg rest (a.id :: seen)
      (r.1.add rr.1, r.2.app rr.2)

end QobuzCli

namespace QobuzCli

theorem sumStats_bump (s : Stats) (c : TrackClass) :
    sumStats (s.bump c) = sumStats s + 1 := by
  cases c <;> simp [Stats.bump, sumStats] <;> omega

theorem sumStats_add (s1 s2 : Stats) :
    sumStats (s1.add s2) = sumStats s1 + sumStats s2 := by
  simp [Stats.add, sumStats]
  omega

theorem albumFold_sum (cfg : DLConfig) :
    ∀ (ts : List TrackEnv) (acc : Stats × Effects),
      sumStats ((ts.foldl (albumStep cfg) acc).1) = sumStats acc.1 + ts.length := by
  intro ts
  induction ts with
  | nil => intro acc; simp
  | cons t rest ih =>
    intro acc
    rw [List.foldl_cons, ih]
    show sumStats ((albumStep cfg acc t).1) + rest.length = _
    rw [show (albumStep cfg acc t).1 = acc.1.bump (getAndProcessTrack cfg t).1 from rfl]
    rw [sumStats_bump]
    simp [List.length_cons]
    omega

theorem processAlbum_sum (cfg : DLConfig) (a : AlbumEnv) (cached : Bool)
    (hs : a.streamable = true)
    (hg : cfg.albums_only = true → a.isAlbumRelease = true) :
    sumStats (processAlbum cfg a cached).1 = a.tracks.length := by
  have hgate : (cfg.albums_only && !a.isAlbumRelease) = false := by
    cases hao : cfg.albums_only
    · simp
    · simp [hg hao]
  unfold processAlbum
  simp only [hs, Bool.not_true, Bool.false_eq_true, if_false, hgate]
  rw [albumFold_sum]
  have hle := List.length_filter_le
    (fun t => !(cfg.download_archive && !cfg.dry_run && t.inArchive)) a.tracks
  have hle2 := List.length_filter_le
    (fun t : TrackEnv => !cfg.download_archive || cfg.dry_run || !t.inArchive) a.tracks
  simp [sumStats, Stats.zero]
  omega

/-- C1 amended: for a run of distinct albums that all pass the streamability
and albums-only gates, the five terminal-classification counters sum to the
total number of submitted tracks — including runs where every upstream call
fails. -/
theorem processRun_conservation (cfg : DLConfig) :
    ∀ (albums : List (AlbumEnv × Bool)) (seen : List String),
      (albums.map (fun p => p.1.id)).Nodup →
      (∀ p ∈ albums, p.1.id ∉ seen) →
      (∀ p ∈ albums, p.1.streamable = true ∧
        (cfg.albums_only = true → p.1.isAlbumRelease = true)) →
      sumStats (processRun cfg albums seen).1 =
        (albums.map (fun p => p.1.tracks.length)).sum := by
  intro albums
  induction albums with
  | nil => intro seen _ _ _; simp [processRun, sumStats, Stats.zero]
  | cons p rest ih =>
    intro seen hnodup hseen hgates
    obtain ⟨a, cached⟩ := p
    have hnotseen : a.id ∉ seen := hseen _ (List.mem_cons_self _ _)
    rw [show processRun cfg ((a, cached) :: rest) seen =
      if a.id ∈ seen then processRun cfg rest seen
      else ((processAlbum cfg a cached).1.add (processRun cfg rest (a.id :: seen)).1,
        (processAlbum cfg a cached).2.app (processRun cfg rest (a.id :: seen)).2) from rfl]
    rw [if_neg hnotseen]
    simp only [List.map_cons, List.sum_cons]
    rw [sumStats_add]
    have hhead := hgates _ (List.mem_cons_self _ _)
    rw [processAlbum_sum cfg a cached hhead.1 hhead.2]
    congr 1
    have hnodup2 : (a.id :: rest.map (fun p => p.1.id)).Nodup := by
      simpa using hnodup
    apply ih
    · exact (List.nodup_cons.mp hnodup2).2
    · intro q hq
      simp only [List.mem_cons]
      rintro (h | h)
      · exact absurd (List.mem_map.mpr ⟨q, hq, h⟩) (List.nodup_cons.mp hnodup2).1
      · exact hseen q (List.mem_cons_of_mem _ hq) h
    · intro q hq
      exact hgates q (List.mem_cons_of_mem _ hq)

end QobuzCli

namespace QobuzCli

/-- C1 counterexample: a run submitting one album with one track, where the
album is not streamable: the album is skipped wholesale, its track ends in
none of the five terminal classifications, and the conservation sum is 0
while M = 1. -/
theorem orchestrator_conservation_counterexample :
    sumStats (processRun ⟨false, true, false, false⟩
      [(⟨"a1", false, true, [⟨"t1", false, true, false, true, false, true⟩]⟩, false)] []).1 = 0 ∧
    (processRun ⟨false, true, false, false⟩
      [(⟨"a1", false, true, [⟨"t1", false, true, false, true, false, true⟩]⟩, false)] []).1.albums_skipped = 1 ∧
    ([((⟨"a1", false, true, [⟨"t1", false, true, false, true, false, true⟩]⟩ : AlbumEnv), false)].map
      (fun p => p.1.tracks.length)).sum = 1 := by
  decide

/-- Witness for the C1 amended theorem: two streamable albums, one whose
every upstream call fails (both tracks classified failed) and one that
downloads; the counters sum to 3 = M. -/
theorem processRun_conservation_witness :
    sumStats (processRun ⟨false, true, false, false⟩
      [(⟨"a1", true, true, [⟨"t1", false, false, false, false, false, false⟩,
          ⟨"t2", false, false, false, false, false, false⟩]⟩, false),
       (⟨"a2", true, true, [⟨"t3", false, true, false, true, false, true⟩]⟩, true)] []).1 = 3 := by
  have h := processRun_conservation ⟨false, true, false, false⟩
    [(⟨"a1", true, true, [⟨"t1", false, false, false, false, false, false⟩,
        ⟨"t2", false, false, false, false, false, false⟩]⟩, false),
     (⟨"a2", true, true, [⟨"t3", false, true, false, true, false, true⟩]⟩, true)] []
    (by decide) (by decide) (by decide)
  simpa using h

theorem getAndProcessTrack_ledgerWrites (cfg : DLConfig) (t : TrackEnv)
    (hdry : cfg.dry_run = false) (harch : cfg.download_archive = true) :
    (getAndProcessTrack cfg t).2.2 =
      if (getAndProcessTrack cfg t).1 = TrackClass.downloaded then [[t.id]] else [] := by
  unfold getAndProcessTrack
  rw [hdry]
  simp only [Bool.false_eq_true, if_false]
  split_ifs <;> simp_all

theorem albumFold_ledgerWrites (cfg : DLConfig)
    (hdry : cfg.dry_run = false) (harch : cfg.download_archive = true) :
    ∀ (ts : List TrackEnv) (acc : Stats × Effects),
      ((ts.foldl (albumStep cfg) acc).2).ledgerWrites =
        acc.2.ledgerWrites ++
          (ts.filter (fun t => (getAndProcessTrack cfg t).1 == TrackClass.downloaded)).map
            (fun t => [t.id]) := by
  intro ts
  induction ts with
  | nil => intro acc; simp
  | cons t rest ih =>
    intro acc
    rw [List.foldl_cons, ih]
    have hstep : (albumStep cfg acc t).2.ledgerWrites =
        acc.2.ledgerWrites ++ (getAndProcessTrack cfg t).2.2 := rfl
    rw [hstep, getAndProcessTrack_ledgerWrites cfg t hdry harch]
    rw [List.filter_cons]
    by_cases hc : (getAndProcessTrack cfg t).1 = TrackClass.downloaded
    · simp [hc]
    · simp [hc]

/-- C7 amended: with the archive enabled (and not in dry-run), every
successfully processed item triggers its own `add_tracks` call with a
singleton batch, immediately after that item — in item order; there is no
single album-end batch. -/
theorem ledger_writes_per_item (cfg : DLConfig) (a : AlbumEnv) (cached : Bool)
    (hdry : cfg.dry_run = false) (harch : cfg.download_archive = true)
    (hs : a.streamable = true)
    (hg : cfg.albums_only = true → a.isAlbumRelease = true) :
    (processAlbum cfg a cached).2.ledgerWrites =
      ((a.tracks.filter (fun t => !t.inArchive)).filter
        (fun t => (getAndProcessTrack cfg t).1 == TrackClass.downloaded)).map
        (fun t => [t.id]) := by
  have hgate : (cfg.albums_only && !a.isAlbumRelease) = false := by
    cases hao : cfg.albums_only
    · simp
    · simp [hg hao]
  unfold processAlbum
  simp only [hs, Bool.not_true, Bool.false_eq_true, if_false, hgate]
  rw [albumFold_ledgerWrites cfg hdry harch]
  simp [hdry, harch, Effects.nil]

/-- Witness for the C7 amended theorem: an album of three tracks — one
archived, one failing its transfer, one succeeding — produces exactly one
singleton `add_tracks` call, for the succeeding track. -/
theorem ledger_writes_per_item_witness :
    (processAlbum ⟨false, true, false, false⟩
      ⟨"a1", true, true, [⟨"t1", true, true, false, true, false, true⟩,
        ⟨"t2", false, true, false, true, false, false⟩,
        ⟨"t3", false, true, false, true, false, true⟩]⟩ true).2.ledgerWrites =
      [["t3"]] := by
  have h := ledger_writes_per_item ⟨false, true, false, false⟩
    ⟨"a1", true, true, [⟨"t1", true, true, false, true, false, true⟩,
      ⟨"t2", false, true, false, true, false, false⟩,
      ⟨"t3", false, true, false, true, false, true⟩]⟩ true rfl rfl rfl (fun h => rfl)
  rw [h]
  decide

/-- C7 counterexample: an album with two successful tracks issues two
separate singleton `add_tracks` calls — one per item — not one album-end
batch containing both records. -/
theorem ledger_batching_counterexample :
    (processAlbum ⟨false, true, false, false⟩
      ⟨"a1", true, true, [⟨"t1", false, true, false, true, false, true⟩,
        ⟨"t2", false, true, false, true, false, true⟩]⟩ true).2.ledgerWrites =
      [["t1"], ["t2"]] ∧
    (processAlbum ⟨false, true, false, false⟩
      ⟨"a1", true, true, [⟨"t1", false, true, false, true, false, true⟩,
        ⟨"t2", false, true, false, true, false, true⟩]⟩ true).2.ledgerWrites ≠
      [["t1", "t2"]] := by
  decide

end QobuzCli

namespace QobuzCli

theorem getAndProcessTrack_dry (cfg : DLConfig) (t : TrackEnv)
    (hdry : cfg.dry_run = true) :
    getAndProcessTrack cfg t = (.downloaded, [], []) := by
  unfold getAndProcessTrack
  rw [hdry]
  simp

theorem albumFold_dry (cfg : DLConfig) (hdry : cfg.dry_run = true) :
    ∀ (ts : List TrackEnv) (acc : Stats × Effects),
      ts.foldl (albumStep cfg) acc =
        ({ acc.1 with tracks_downloaded := acc.1.tracks_downloaded + ts.length }, acc.2) := by
  intro ts
  induction ts with
  | nil => intro acc; simp
  | cons t rest ih =>
    intro acc
    have hstep : albumStep cfg acc t =
        ({ acc.1 with tracks_downloaded := acc.1.tracks_downloaded + 1 }, acc.2) := by
      unfold albumStep
      rw [getAndProcessTrack_dry cfg t hdry]
      simp [Stats.bump]
    rw [List.foldl_cons, hstep, ih]
    have harith : acc.1.tracks_downloaded + 1 + rest.length =
        acc.1.tracks_downloaded + (t :: rest).length := by
      simp [List.length_cons]
      omega
    rw [harith]

theorem processAlbum_dry (cfg : DLConfig) (a : AlbumEnv) (cached : Bool)
    (hdry : cfg.dry_run = true) :
    processAlbum cfg a cached =
      if (!a.streamable) = true then
        ({ Stats.zero with albums_skipped := 1 },
         ⟨if cached then [] else [a.id], if cached then [] else [a.id], [], [], []⟩)
      else if (cfg.albums_only && !a.isAlbumRelease) = true then
        (Stats.zero,
         ⟨if cached then [] else [a.id], if cached then [] else [a.id], [], [], []⟩)
      else
        ({ Stats.zero with tracks_downloaded := a.tracks.length },
         ⟨if cached then [] else [a.id], if cached then [] else [a.id], [], [], []⟩) := by
  unfold processAlbum
  by_cases hs : (!a.streamable) = true
  · simp [hs, Effects.nil]
  · simp only [hs, Bool.false_eq_true, if_false]
    by_cases hgate : (cfg.albums_only && !a.isAlbumRelease) = true
    · simp [hgate, Effects.nil]
    · simp only [hgate, Bool.false_eq_true, if_false]
      rw [albumFold_dry cfg hdry]
      have hproc : a.tracks.filter
          (fun t => !(cfg.download_archive && !cfg.dry_run && t.inArchive)) = a.tracks := by
        rw [hdry]
        simp
      rw [hdry]
      simp [hproc, Effects.nil, Stats.zero]

/-- C8 amended: in dry-run mode the album flow performs no transfer, no
ledger write, and also no ledger read — so already-archived tracks are
reported as would-download rather than would-skip — while metadata
resolution (with its cache write on a cache miss) still happens; the
single-track flow, by contrast, still performs its ledger read in dry-run. -/
theorem dry_run_frame (cfg : DLConfig) (a : AlbumEnv) (t : TrackEnv) (cached tcached : Bool)
    (hdry : cfg.dry_run = true) :
    (processAlbum cfg a cached).2.transfers = [] ∧
    (processAlbum cfg a cached).2.ledgerWrites = [] ∧
    (processAlbum cfg a cached).2.ledgerReads = [] ∧
    (processAlbum cfg a cached).2.metadataFetches = (if cached then [] else [a.id]) ∧
    (processAlbum cfg a cached).2.cacheWrites = (if cached then [] else [a.id]) ∧
    (a.streamable = true → (cfg.albums_only = true → a.isAlbumRelease = true) →
      (processAlbum cfg a cached).1.tracks_downloaded = a.tracks.length) ∧
    (processSingleTrack cfg t tcached).2.ledgerReads =
      (if cfg.download_archive = true then [[t.id]] else []) ∧
    (processSingleTrack cfg t tcached).2.transfers = [] ∧
    (processSingleTrack cfg t tcached).2.ledgerWrites = [] := by
  rw [processAlbum_dry cfg a cached hdry]
  refine ⟨?_, ?_, ?_, ?_, ?_, ?_, ?_, ?_, ?_⟩
  · split_ifs <;> rfl
  · split_ifs <;> rfl
  · split_ifs <;> rfl
  · split_ifs <;> rfl
  · split_ifs <;> rfl
  · intro hstream hgate
    have h1 : (!a.streamable) = false := by simp [hstream]
    have h2 : (cfg.albums_only && !a.isAlbumRelease) = false := by
      cases hao : cfg.albums_only
      · simp
      · simp [hgate hao]
    simp [h1, h2]
  · unfold processSingleTrack
    by_cases harch : (cfg.download_archive && t.inArchive) = true
    · simp [harch, Effects.nil]
    · simp only [harch, Bool.false_eq_true, if_false]
  · unfold processSingleTrack
    by_cases harch : (cfg.download_archive && t.inArchive) = true
    · simp [harch, Effects.nil]
    · simp only [harch, Bool.false_eq_true, if_false]
      rw [getAndProcessTrack_dry cfg t hdry]
  · unfold processSingleTrack
    by_cases harch : (cfg.download_archive && t.inArchive) = true
    · simp [harch, Effects.nil]
    · simp only [harch, Bool.false_eq_true, if_false]
      rw [getAndProcessTrack_dry cfg t hdry]

/-- Witness for the C8 amended theorem at a concrete dry-run configuration
with an archived track. -/
theorem dry_run_frame_witness :
    (processAlbum ⟨true, true, false, false⟩
      ⟨"a1", true, true, [⟨"t1", true, true, false, true, false, true⟩]⟩ false).2.transfers = [] ∧
    (processAlbum ⟨true, true, false, false⟩
      ⟨"a1", true, true, [⟨"t1", true, true, false, true, false, true⟩]⟩ false).2.ledgerWrites = [] ∧
    (processAlbum ⟨true, true, false, false⟩
      ⟨"a1", true, true, [⟨"t1", true, true, false, true, false, true⟩]⟩ false).2.ledgerReads = [] ∧
    (processAlbum ⟨true, true, false, false⟩
      ⟨"a1", true, true, [⟨"t1", true, true, false, true, false, true⟩]⟩ false).2.metadataFetches =
      (if false then [] else ["a1"]) ∧
    (processAlbum ⟨true, true, false, false⟩
      ⟨"a1", true, true, [⟨"t1", true, true, false, true, false, true⟩]⟩ false).2.cacheWrites =
      (if false then [] else ["a1"]) ∧
    ((⟨"a1", true, true, [⟨"t1", true, true, false, true, false, true⟩]⟩ : AlbumEnv).streamable = true →
      ((⟨true, true, false, false⟩ : DLConfig).albums_only = true →
        (⟨"a1", true, true, [⟨"t1", true, true, false, true, false, true⟩]⟩ : AlbumEnv).isAlbumRelease = true) →
      (processAlbum ⟨true, true, false, false⟩
        ⟨"a1", true, true, [⟨"t1", true, true, false, true, false, true⟩]⟩ false).1.tracks_downloaded =
        (⟨"a1", true, true, [⟨"t1", true, true, false, true, false, true⟩]⟩ : AlbumEnv).tracks.length) ∧
    (processSingleTrack ⟨true, true, false, false⟩ ⟨"t9", true, true, false, true, false, true⟩ true).2.ledgerReads =
      (if (⟨true, true, false, false⟩ : DLConfig).download_archive = true then [["t9"]] else []) ∧
    (processSingleTrack ⟨true, true, false, false⟩ ⟨"t9", true, true, false, true, false, true⟩ true).2.transfers = [] ∧
    (processSingleTrack ⟨true, true, false, false⟩ ⟨"t9", true, true, false, true, false, true⟩ true).2.ledgerWrites = [] :=
  dry_run_frame ⟨true, true, false, false⟩
    ⟨"a1", true, true, [⟨"t1", true, true, false, true, false, true⟩]⟩
    ⟨"t9", true, true, false, true, false, true⟩ false true rfl

/-- C8 counterexample: in dry-run with the archive enabled, an album whose
only track is already archived performs no ledger read at all, counts the
track as would-download, and reports no archive skip — so "would skip"
reporting is not accurate and ledger reads are not performed. -/
theorem dry_run_ledger_read_counterexample :
    (processAlbum ⟨true, true, false, false⟩
      ⟨"a1", true, true, [⟨"t1", true, true, false, true, false, true⟩]⟩ true).2.ledgerReads = [] ∧
    (processAlbum ⟨true, true, false, false⟩
      ⟨"a1", true, true, [⟨"t1", true, true, false, true, false, true⟩]⟩ true).1.tracks_skipped_archive = 0 ∧
    (processAlbum ⟨true, true, false, false⟩
      ⟨"a1", true, true, [⟨"t1", true, true, false, true, false, true⟩]⟩ true).1.tracks_downloaded = 1 := by
  decide

end QobuzCli

namespace QobuzCli

/-! ### TrackProcessor.process_track transfer/finalization
(track_processor.py lines 151–219) and Tagger.tag_file (tagger.py)

The transfer pipeline for one item whose final path is free: download to
`temp_path = final_path.with_suffix(".{track_id}.tmp")`, tag, rename, check
integrity.  `TransferOutcome` says which of the three fallible stages would
succeed; `processTrackTransfer` replays the source's control flow over it,
recording the filesystem events in order. -/

/-- One fallible stage outcome for a transfer. -/
structure TransferOutcome where
  downloadOk : Bool   -- `downloader.download_file` completes
  tagOk : Bool        -- `tagger.tag_file` tags and renames (returns True)
  integrityOk : Bool  -- the content at the final path would pass the check
  deriving DecidableEq, Repr

/-- Filesystem events of the transfer pipeline, in program order. -/
inductive TransferEvent : Type
  | downloadToTemp
  | renameTempToFinal
  | integrityCheck (passed : Bool)
  | removeTemp
  deriving DecidableEq, Repr

/-- Result of `process_track` beyond the download gates. -/
structure TransferResult where
  isDownloaded : Bool   -- `tracks_downloaded` was incremented
  returnsMeta : Bool    -- `process_track` returned the meta, so the caller
                        -- issues the `add_tracks` ledger insert
  tempExists : Bool     -- `.tmp` file left on disk afterwards
  finalExists : Bool    -- a file sits at the final path afterwards
  events : List TransferEvent
  deriving DecidableEq, Repr

/-- The `try/except/finally` of `process_track` around download, `tag_file`
(which performs `os.rename(temp, final)` after tagging and swallows its own
exceptions, returning False), and `FileIntegrityChecker` (which reports
failure when no file exists at the final path). -/
def processTrackTransfer (o : TransferOutcome) : TransferResult :=
  if !o.downloadOk then
    -- download raised: except-branch counts the item failed; the finally
    -- block removes the partial temp file
    ⟨false, false, false, false, [.downloadToTemp, .removeTemp]⟩
  else
    let renamed := o.tagOk  -- tag_file renames only when tagging succeeded
    let intact := o.tagOk && o.integrityOk  -- check runs on the final path
    let evs := [TransferEvent.downloadToTemp] ++
      (if renamed then [TransferEvent.renameTempToFinal] else []) ++
      [TransferEvent.integrityCheck intact]
    if intact then
      -- success: downloaded, meta returned; temp no longer exists
      ⟨true, true, false, true, evs⟩
    else
      -- FileIntegrityError: failed; finally removes the temp file if it
      -- still exists, i.e. exactly when the rename never happened — the
      -- renamed file at the final path is left in place
      ⟨false, false, false, renamed,
        evs ++ (if renamed then [] else [TransferEvent.removeTemp])⟩

/-- C6 counterexample: a transfer that completes and tags but fails the
integrity validation: the temp file was already moved to the final path
before the check ran, the item counts as failed with no ledger insert, yet
the corrupt file remains at the final path — the move is not gated on the
validation and the file is not removed. -/
theorem finalize_before_validation_counterexample :
    (processTrackTransfer ⟨true, true, false⟩).finalExists = true ∧
    (processTrackTransfer ⟨true, true, false⟩).isDownloaded = false ∧
    (processTrackTransfer ⟨true, true, false⟩).returnsMeta = false ∧
    (processTrackTransfer ⟨true, true, false⟩).events =
      [.downloadToTemp, .renameTempToFinal, .integrityCheck false] := by
  decide

/-- C6 amended: bytes are downloaded to the temp path and moved to the
final path after the transfer and tagging succeed but *before* the
integrity validation; on any failure the temp file is removed and no ledger
record is inserted, but a file that failed validation after the move
remains at the final path. -/
theorem finalize_behavior (o : TransferOutcome) :
    (processTrackTransfer o).returnsMeta = (o.downloadOk && o.tagOk && o.integrityOk) ∧
    (processTrackTransfer o).isDownloaded = (o.downloadOk && o.tagOk && o.integrityOk) ∧
    (processTrackTransfer o).tempExists = false ∧
    (processTrackTransfer o).finalExists = (o.downloadOk && o.tagOk) ∧
    (processTrackTransfer o).events =
      (if !o.downloadOk then [.downloadToTemp, .removeTemp]
       else if o.tagOk then
        [.downloadToTemp, .renameTempToFinal, .integrityCheck o.integrityOk]
       else [.downloadToTemp, .integrityCheck false, .removeTemp]) := by
  obtain ⟨d, tg, ig⟩ := o
  cases d <;> cases tg <;> cases ig <;> decide

end QobuzCli
